import Mathlib

/-!
Shallow embedding of the Qtrading_us acquisition-and-selection pipeline.

Source files embedded here:
  * `src/modules/stock_data.py` — `fetch_prices_yf` (freshness resolution,
    batched download with retry) and `pick_stocks` (momentum filter cascade,
    grouping and ranking).
  * `src/modules/database.py` — `upsert_prices` over the sqlite `prices`
    table with `PRIMARY KEY(code, date)` and `INSERT OR REPLACE`.

Modelling conventions:
  * Prices and volumes are rationals (`ℚ`); pandas float arithmetic is
    idealised as exact arithmetic.
  * Calendar dates are integers (day ordinals).  The Python code compares
    ISO-8601 date strings lexicographically, which coincides with the
    chronological order modelled by `Int` comparison.
  * The one non-rational quantity, `volatility_pct = std/mean*100`
    (a square root), is carried in exact squared form: the comparisons the
    code performs with it (`> 8.0` and `avg_distance > max(3.0, 1.5*vol)`)
    are embedded by the equivalent squared comparisons, valid because both
    sides of each comparison are nonnegative at the point of use.
  * Exceptions become `Except`; the `ValueError` raised for missing columns
    carries the list of missing column names as its payload.
-/

/-! ### Rational helpers (pandas `mean` and sample variance `std(ddof=1)²`) -/

/-- Mean of a list of rationals, `pandas.Series.mean` (0 on the empty list,
a case never reached on the paths the code takes). -/
def meanQ (xs : List ℚ) : ℚ := xs.sum / xs.length

/-- Sample variance with `ddof = 1`, i.e. the square of `pandas.Series.std`. -/
def varQ (xs : List ℚ) : ℚ :=
  ((xs.map (fun x => (x - meanQ xs) ^ 2)).sum) / (xs.length - 1)

/-! ### Data model -/

/-- One row of the unified price table (`code, date, open, high, low, close,
volume` in the source). `open` is a Lean keyword, hence `openP`. -/
structure Row where
  code : String
  date : Int
  openP : ℚ
  high : ℚ
  low : ℚ
  close : ℚ
  volume : ℚ
deriving DecidableEq, Repr, Inhabited

/-- The value of line 272,
`volatility_pct = (price_std / price_mean * 100) if price_mean > 0 else 999`.
The `divided` branch performs the division; since `price_std` is a square
root the value is carried as its exact square
`volSq = (std/mean*100)² = 10000·var/mean²`.  The `sentinel` branch is the
literal `999` with no division performed. -/
inductive VolatilityPct where
  | divided (volSq : ℚ) : VolatilityPct
  | sentinel : VolatilityPct
deriving DecidableEq, Repr

/-- Lines 270–272: compute the volatility of the last-5 closes. -/
def volatilityPct (closes : List ℚ) : VolatilityPct :=
  if 0 < meanQ closes then .divided (10000 * varQ closes / (meanQ closes) ^ 2)
  else .sentinel

/-- Line 273, `volatility_pct > 8.0`.  In the `divided` branch
`vol > 8 ↔ vol² > 64` because `vol = 100·std/mean ≥ 0` there; in the
`sentinel` branch `999 > 8.0` is `true`. -/
def volExceeds8 : VolatilityPct → Bool
  | .divided volSq => decide ((64 : ℚ) < volSq)
  | .sentinel => true

/-- Line 284, `avg_distance > max_distance_allowed` with
`max_distance_allowed = max(3.0, volatility_pct * 1.5)` (line 277).
`avg_distance > max(3, 1.5·vol) ↔ avg_distance > 3 ∧ avg_distance > 1.5·vol`,
and for `vol = sqrt volSq ≥ 0` the second conjunct is
`avg_distance > 0 ∧ avg_distance² > 2.25·volSq`, subsumed by
`avg_distance > 3 ∧ avg_distance² > 2.25·volSq`. -/
def distExceedsMax (vol : VolatilityPct) (avgDistance : ℚ) : Bool :=
  match vol with
  | .divided volSq =>
      decide ((3 : ℚ) < avgDistance ∧ (9 / 4) * volSq < avgDistance ^ 2)
  | .sentinel => decide (max (3 : ℚ) (999 * (3 / 2)) < avgDistance)

/-- A surviving ticker's record (the dict built at lines 295–307).
`volatility` is kept in the exact `VolatilityPct` form; the float field
`max_distance` of the source dict equals `max(3.0, 1.5·volatility)` and is
determined by `volatility`, so it is not duplicated here. -/
structure Candidate where
  code : String
  close : ℚ
  ma20 : ℚ
  distance : ℚ
  volatility : VolatilityPct
  ma20_slope : ℚ
  volume : ℚ
  avg_volume_10d : ℚ
  avg_ma20_distance : ℚ
  is_lowest_close : Bool
deriving DecidableEq, Repr

/-! ### Rolling MA20 (`rolling(20, min_periods=20).mean()`) -/

/-- Model of `Series.rolling(w, min_periods=w).mean()`: entry `i` is the mean of the
`w` values ending at `i`, or `none` while fewer than `w` observations
exist. -/
def rollingMean (w : Nat) (xs : List ℚ) : List (Option ℚ) :=
  (List.range xs.length).map (fun i =>
    if w ≤ i + 1 then some (meanQ ((xs.take (i + 1)).drop (i + 1 - w))) else none)

/-! ### Per-ticker gate cascade (`pick_stocks` lines 231–307) -/

/-- The last `n` elements of a list (`DataFrame.tail(n)`). -/
def tailN (n : Nat) (l : List α) : List α := l.drop (l.length - n)

/-- Lines 231–307: evaluate one ticker's chronologically sorted rows through
the gate cascade; `some` is the appended result dict, `none` is any
`continue`. -/
def evalTicker (g : List Row) : Option Candidate :=
  if g.length < 10 then none
  else
    let last10 := tailN 10 g
    let avgVolume := meanQ (last10.map (·.volume))
    if avgVolume < 1000000 then none
    else
      let last5 := tailN 5 g
      let ma5 := tailN 5 (rollingMean 20 (g.map (·.close)))
      if ma5.any (·.isNone) then none
      else
        let ma5v := ma5.reduceOption
        if ¬ ((last5.zip ma5v).all
            (fun p => decide (p.2 < (p.1.openP + p.1.close) / 2))) then none
        else
          let avgHighLow := meanQ (last10.map (fun r => r.high - r.low))
          if avgHighLow ≤ 0.5 then none
          else
            let ma20_slope := (ma5v.getLastD 0 - ma5v.headD 0) / 4
            if 2 ≤ ma20_slope then none
            else
              let closes5 := last5.map (·.close)
              let vol := volatilityPct closes5
              if volExceeds8 vol then none
              else
                let avgDistance := meanQ ((last5.zip ma5v).map
                  (fun p => (min p.1.openP p.1.close - p.2) / p.2 * 100))
                if distExceedsMax vol avgDistance then none
                else
                  let avgMa20Distance := meanQ ((last5.zip ma5v).map
                    (fun p => |(p.1.openP + p.1.close) / 2 - p.2|))
                  let latest := last5.getLastD default
                  some {
                    code := latest.code,
                    close := latest.close,
                    ma20 := ma5v.getLastD 0,
                    distance := avgDistance,
                    volatility := vol,
                    ma20_slope := ma20_slope,
                    volume := latest.volume,
                    avg_volume_10d := avgVolume,
                    avg_ma20_distance := avgMa20Distance,
                    is_lowest_close := decide (latest.close = (closes5.min?).getD 0) }

/-! ### Grouping and ranking (`pick_stocks` lines 309–339) -/

/-- Group A test of line 315: `0.8 <= ma20_slope < 2` ("strong trend"). -/
def inGroupA (c : Candidate) : Bool :=
  decide ((0.8 : ℚ) ≤ c.ma20_slope ∧ c.ma20_slope < 2)

/-- Group B test of line 316: `ma20_slope < 0.8` ("potential stocks"). -/
def inGroupB (c : Candidate) : Bool := decide (c.ma20_slope < (0.8 : ℚ))

/-- Model of `DataFrame.nsmallest(n, "avg_ma20_distance")`: the `n` rows with the
smallest key, ties broken by original relative order (`keep='first'`),
i.e. a stable ascending sort followed by `take n`. -/
def nsmallestByDist (n : Nat) (l : List Candidate) : List Candidate :=
  (List.insertionSort (fun a b => a.avg_ma20_distance ≤ b.avg_ma20_distance) l).take n

/-- Lines 319–326 (and identically 329–336): trim one slope group to at
most 6 members, preferring candidates whose close is not the 5-day low. -/
def selectGroup (g : List Candidate) : List Candidate :=
  if 6 < g.length then
    let f := g.filter (fun c => c.is_lowest_close = false)
    if 6 < f.length then nsmallestByDist 6 f
    else if 0 < f.length then f
    else nsmallestByDist 6 g
  else g

/-- Lines 314–338: split the survivors into the two slope groups, trim each,
and concatenate Group A before Group B. -/
def selectGroups (cands : List Candidate) : List Candidate :=
  selectGroup (cands.filter inGroupA) ++ selectGroup (cands.filter inGroupB)

/-! ### The full `pick_stocks` (lines 176–339) -/

/-- The ascending list of distinct ticker codes of a price table;
`groupby("code")` iterates groups in this (sorted) key order. -/
def sortedCodes (rows : List Row) : List String :=
  List.insertionSort (· ≤ ·) (rows.map (·.code)).dedup

/-- One ticker's rows in chronological order
(`sort_values(["code","date"])` restricted to one code, plus the
per-group `sort_values("date")` of line 232). -/
def rowsFor (c : String) (rows : List Row) : List Row :=
  List.insertionSort (fun a b => a.date ≤ b.date)
    (rows.filter (fun r => r.code = c))

/-- Lines 230–307: the survivor list, one entry per ticker that passes every
gate, in sorted code order. -/
def survivors (rows : List Row) : List Candidate :=
  (sortedCodes rows).filterMap (fun c => evalTicker (rowsFor c rows))

/-- The input `DataFrame`: the list of column names actually present plus the
row data.  Column validation in the source inspects only the column names. -/
structure PriceTable where
  cols : List String
  rows : List Row

/-- Line 202. -/
def requiredColumns : List String :=
  ["code", "date", "open", "high", "low", "close", "volume"]

/-- Line 203: `[col for col in required_columns if col not in prices.columns]`. -/
def missingColumns (prices : PriceTable) : List String :=
  requiredColumns.filter (fun c => c ∉ prices.cols)

/-- Lines 197–339: the whole selector.  `Except.error` is the `ValueError`
of line 207, whose message names exactly the missing columns (carried here
as the error payload). -/
def pickStocks (prices : PriceTable) : Except (List String) (List Candidate) :=
  if prices.rows.isEmpty then .ok []
  else if missingColumns prices ≠ [] then .error (missingColumns prices)
  else
    let results := survivors prices.rows
    if results.isEmpty then .ok []
    else .ok (selectGroups results)

/-! ### Freshness resolution (`fetch_prices_yf` lines 33–54) -/

/-- Association-list lookup standing for the dict returned by
`get_existing_data_range` restricted to the `"max"` field, the only one
`fetch_prices_yf` reads. -/
def alookup (c : String) : List (String × Int) → Option Int
  | [] => none
  | (k, v) :: rest => if k = c then some v else alookup c rest

/-- Line 34: `(utcnow() - timedelta(days=lookback_days * 2)).date()` — the
single start date shared by every download of the run. -/
def targetStart (today lookbackDays : Int) : Int := today - 2 * lookbackDays

/-- Python `str.strip()`: drop leading and trailing whitespace. -/
def pyStrip (s : String) : String :=
  ⟨((s.data.dropWhile Char.isWhitespace).reverse.dropWhile Char.isWhitespace).reverse⟩

/-- Lines 36–50: which requested tickers must be (re)downloaded.  A code is
stripped; blank codes are skipped; a code absent from the store or whose
stored max date is strictly before today is fetched, otherwise skipped. -/
def codesToFetch (codes : List String) (existing : List (String × Int))
    (today : Int) : List String :=
  codes.filterMap (fun c0 =>
    let c := pyStrip c0
    if c = "" then none
    else
      match alookup c existing with
      | none => some c
      | some maxDate => if maxDate < today then some c else none)

/-! ### Batched download with retry (`fetch_prices_yf` lines 60–173) -/

/-- Constant `MAX_RETRIES` (line 18). -/
def MAX_RETRIES : Nat := 3

/-- Constant `BATCH_SIZE` (line 15). -/
def BATCH_SIZE : Nat := 200

/-- Helper for the slices `codes_to_fetch[i*B:(i+1)*B]`; chunk size is `n + 1`. -/
def chunksAux (n : Nat) : List α → List (List α)
  | [] => []
  | x :: xs => (x :: xs.take n) :: chunksAux n (xs.drop n)
termination_by l => l.length
decreasing_by simp only [List.length_drop, List.length_cons]; omega

/-- Partition a list into consecutive chunks of at most `n ≥ 1` elements. -/
def chunksOf (n : Nat) (l : List α) : List (List α) := chunksAux (n - 1) l

/-- One ticker's slice of a `yf.download` response, already in canonical
lower-case column form with tz-free dates. -/
structure RawBar where
  date : Int
  openP : ℚ
  high : ℚ
  low : ℚ
  close : ℚ
  volume : ℚ
deriving DecidableEq, Repr

/-- A whole-batch response: per-ticker slices keyed by ticker (`c in df`). -/
def Resp := List (String × List RawBar)

/-- Lookup of `df[c]` when `c in df`. -/
def lookupSlice (c : String) : Resp → Option (List RawBar)
  | [] => none
  | (k, v) :: rest => if k = c then some v else lookupSlice c rest

/-- Lines 102–110 for one code on the success path: a usable slice becomes
canonical rows tagged with the code; a missing or empty slice yields
nothing. -/
def sliceRows (resp : Resp) (c : String) : List Row :=
  match lookupSlice c resp with
  | some l =>
      if l.isEmpty then []
      else l.map (fun b => ⟨c, b.date, b.openP, b.high, b.low, b.close, b.volume⟩)
  | none => []

/-- Lines 111–116: codes whose slice is missing or empty are recorded in
`failed_stocks` even when the batch download itself succeeded. -/
def sliceFailed (resp : Resp) (c : String) : Bool :=
  match lookupSlice c resp with
  | some l => l.isEmpty
  | none => true

/-- Lines 100–121: normalize one successful batch response into
(rows appended to `all_results`, codes appended to `failed_stocks`). -/
def processBatch (resp : Resp) (batchCodes : List String) :
    List Row × List String :=
  (batchCodes.flatMap (sliceRows resp), batchCodes.filter (sliceFailed resp))

/-- The retry loop of lines 82–144, download side: try attempts
`a, a+1, …` while fuel lasts, returning the first successful response.
`net attempt` models the outcome of the `yf.download` call on that
attempt. -/
def firstOk (net : Nat → Except String Resp) : Nat → Nat → Option Resp
  | _, 0 => none
  | a, fuel + 1 =>
      match net a with
      | .ok r => some r
      | .error _ => firstOk net (a + 1) fuel

/-- One batch through the retry loop: a successful attempt is normalized;
exhausting `MAX_RETRIES` attempts marks every code of the batch failed
(lines 140–144) — the exception is caught, never propagated. -/
def runBatch (net : Nat → Except String Resp) (batchCodes : List String) :
    List Row × List String :=
  match firstOk net 0 MAX_RETRIES with
  | some resp => processBatch resp batchCodes
  | none => ([], batchCodes)

/-- The batch loop of lines 73–157 (inter-batch delays are pure waiting and
are not modelled): `netw batchIdx attempt` is the download outcome for the
given batch and attempt. -/
def runBatches (netw : Nat → Nat → Except String Resp) :
    Nat → List (List String) → List Row × List String
  | _, [] => ([], [])
  | i, bc :: rest =>
      let pr := runBatch (netw i) bc
      let rest' := runBatches netw (i + 1) rest
      (pr.1 ++ rest'.1, pr.2 ++ rest'.2)

/-- The unified result of one `fetch_prices_yf` run: the concatenated rows
(line 160) and the accumulated `failed_stocks`. -/
structure FetchResult where
  rows : List Row
  failed : List String
deriving Repr

/-- Lines 33–173 of `fetch_prices_yf` (network I/O abstracted into `netw`). -/
def fetchRun (netw : Nat → Nat → Except String Resp) (codes : List String)
    (existing : List (String × Int)) (today : Int) : FetchResult :=
  let tf := codesToFetch codes existing today
  if tf.isEmpty then ⟨[], []⟩
  else
    let pr := runBatches netw 0 (chunksOf BATCH_SIZE tf)
    ⟨pr.1, pr.2⟩

/-- The per-batch download requests of a run: every batch is requested with
the one shared `target_start` (line 91 always passes the `target_start`
computed once on line 34). -/
structure BatchRequest where
  codes : List String
  start : Int

/-- The request list a run issues. -/
def batchRequests (codes : List String) (existing : List (String × Int))
    (today lookbackDays : Int) : List BatchRequest :=
  (chunksOf BATCH_SIZE (codesToFetch codes existing today)).map
    (fun bc => ⟨bc, targetStart today lookbackDays⟩)

/-! ### The price store and `upsert_prices` (`database.py` lines 16–84) -/

/-- The natural key `PRIMARY KEY(code, date)` of the `prices` table. -/
def keyOf (r : Row) : String × Int := (r.code, r.date)

/-- One `INSERT OR REPLACE INTO prices` statement (lines 71-79): sqlite
deletes any row conflicting on the primary key, then inserts the new row. -/
def upsertRow (store : List Row) (r : Row) : List Row :=
  (store.filter (fun s => keyOf s ≠ keyOf r)) ++ [r]

/-- Function `upsert_prices` (lines 53–84): each row of the frame is upserted in
order; the empty frame is a no-op (line 60). -/
def upsertAll (store : List Row) (df : List Row) : List Row :=
  df.foldl upsertRow store

/-- The key column of a store. -/
def keysOf (store : List Row) : List (String × Int) := store.map keyOf

/-- Query `SELECT * FROM prices WHERE code = ? AND date = ?` (first match). -/
def findByKey (store : List Row) (k : String × Int) : Option Row :=
  store.find? (fun s => keyOf s = k)

/-! ### Helper lemmas: the group-trimming stage -/

lemma mem_nsmallestByDist {x : Candidate} {n : Nat} {l : List Candidate}
    (hx : x ∈ nsmallestByDist n l) : x ∈ l := by
  have h1 : x ∈ List.insertionSort
      (fun a b => a.avg_ma20_distance ≤ b.avg_ma20_distance) l :=
    List.take_subset _ _ hx
  exact (List.perm_insertionSort _ l).mem_iff.mp h1

lemma mem_selectGroup {x : Candidate} {g : List Candidate}
    (hx : x ∈ selectGroup g) : x ∈ g := by
  simp only [selectGroup] at hx
  split at hx
  · split at hx
    · exact List.mem_of_mem_filter (mem_nsmallestByDist hx)
    · split at hx
      · exact List.mem_of_mem_filter hx
      · exact mem_nsmallestByDist hx
  · exact hx

lemma length_selectGroup_le (g : List Candidate) : (selectGroup g).length ≤ 6 := by
  simp only [selectGroup]
  split
  · split
    · exact le_trans (List.length_take_le _ _) (le_refl _)
    · split
      · omega
      · exact le_trans (List.length_take_le _ _) (le_refl _)
  · omega

/-- Minimality contract of `nsmallest`: when the pool has at least `6`
rows, the result has exactly `6` rows, drawn from the pool, and every kept
row's key is at most every dropped row's key. -/
lemma nsmallestByDist_spec (l : List Candidate) (h : 6 ≤ l.length) :
    (nsmallestByDist 6 l).length = 6 ∧
    (∀ x ∈ nsmallestByDist 6 l, x ∈ l) ∧
    (∀ x ∈ nsmallestByDist 6 l, ∀ y ∈ l, y ∉ nsmallestByDist 6 l →
      x.avg_ma20_distance ≤ y.avg_ma20_distance) := by
  set r : Candidate → Candidate → Prop :=
    fun a b => a.avg_ma20_distance ≤ b.avg_ma20_distance with hr
  haveI : IsTotal Candidate r := ⟨fun a b => le_total _ _⟩
  haveI : IsTrans Candidate r := ⟨fun a b c hab hbc => le_trans hab hbc⟩
  have hlen : (List.insertionSort r l).length = l.length :=
    List.length_insertionSort r l
  have hperm := List.perm_insertionSort r l
  have hsorted : (List.insertionSort r l).Sorted r := List.sorted_insertionSort r l
  refine ⟨?_, fun x hx => mem_nsmallestByDist hx, ?_⟩
  · simp only [nsmallestByDist, List.length_take, hlen]
    omega
  · intro x hx y hy hyn
    have hys : y ∈ List.insertionSort r l := hperm.mem_iff.mpr hy
    have hsplit : List.insertionSort r l =
        (List.insertionSort r l).take 6 ++ (List.insertionSort r l).drop 6 :=
      (List.take_append_drop 6 _).symm
    have hyd : y ∈ (List.insertionSort r l).drop 6 := by
      rw [hsplit] at hys
      rcases List.mem_append.mp hys with h1 | h2
      · exact absurd h1 hyn
      · exact h2
    have hpw : ((List.insertionSort r l).take 6 ++
        (List.insertionSort r l).drop 6).Pairwise r := by
      rw [← hsplit]; exact hsorted
    exact (List.pairwise_append.mp hpw).2.2 x hx y hyd

lemma filter_selectGroups_A (cands : List Candidate) :
    (selectGroups cands).filter inGroupA = selectGroup (cands.filter inGroupA) := by
  unfold selectGroups
  rw [List.filter_append]
  have h1 : (selectGroup (cands.filter inGroupA)).filter inGroupA =
      selectGroup (cands.filter inGroupA) := by
    rw [List.filter_eq_self]
    intro a ha
    exact (List.mem_filter.mp (mem_selectGroup ha)).2
  have h2 : (selectGroup (cands.filter inGroupB)).filter inGroupA = [] := by
    rw [List.filter_eq_nil_iff]
    intro a ha
    have hb : inGroupB a = true := (List.mem_filter.mp (mem_selectGroup ha)).2
    simp only [inGroupA, inGroupB, decide_eq_true_eq] at hb ⊢
    intro ⟨h08, _⟩
    exact absurd hb (not_lt.mpr h08)
  rw [h1, h2, List.append_nil]

lemma filter_selectGroups_B (cands : List Candidate) :
    (selectGroups cands).filter inGroupB = selectGroup (cands.filter inGroupB) := by
  unfold selectGroups
  rw [List.filter_append]
  have h1 : (selectGroup (cands.filter inGroupA)).filter inGroupB = [] := by
    rw [List.filter_eq_nil_iff]
    intro a ha
    have hb : inGroupA a = true := (List.mem_filter.mp (mem_selectGroup ha)).2
    simp only [inGroupA, inGroupB, decide_eq_true_eq] at hb ⊢
    exact not_lt.mpr hb.1
  have h2 : (selectGroup (cands.filter inGroupB)).filter inGroupB =
      selectGroup (cands.filter inGroupB) := by
    rw [List.filter_eq_self]
    intro a ha
    exact (List.mem_filter.mp (mem_selectGroup ha)).2
  rw [h1, h2, List.nil_append]

/-- C1.  For every input price table, each of Group A
(`0.8 ≤ ma20_slope < 2.0`) and Group B (`ma20_slope < 0.8`) in the output
of `pick_stocks` has at most 6 members, so the returned candidate sequence
has at most 12 rows in total. -/
theorem pick_group_size_bound (prices : PriceTable) (out : List Candidate)
    (h : pickStocks prices = .ok out) :
    (out.filter inGroupA).length ≤ 6 ∧
    (out.filter inGroupB).length ≤ 6 ∧
    out.length ≤ 12 := by
  simp only [pickStocks] at h
  split at h
  · cases h
    exact ⟨by simp, by simp, by simp⟩
  · split at h
    · cases h
    · split at h
      · cases h
        exact ⟨by simp, by simp, by simp⟩
      · cases h
        refine ⟨?_, ?_, ?_⟩
        · rw [filter_selectGroups_A]
          exact length_selectGroup_le _
        · rw [filter_selectGroups_B]
          exact length_selectGroup_le _
        · have := length_selectGroup_le ((survivors prices.rows).filter inGroupA)
          have := length_selectGroup_le ((survivors prices.rows).filter inGroupB)
          simp only [selectGroups, List.length_append]
          omega

/-- C1 witness at a concrete input. -/
theorem pick_group_size_bound_witness :
    ((([] : List Candidate)).filter inGroupA).length ≤ 6 ∧
    ((([] : List Candidate)).filter inGroupB).length ≤ 6 ∧
    ([] : List Candidate).length ≤ 12 :=
  pick_group_size_bound ⟨requiredColumns, []⟩ [] rfl

/-- C2.  For every group (A or B) whose size exceeds 6, the
preferred-subset rule of lines 319–336: a preferred subset
(`is_lowest_close` false) larger than 6 is cut to its 6 smallest
`avg_ma20_distance` members; a preferred subset of 1–6 members is kept
whole; an empty preferred subset falls back to the 6 smallest
`avg_ma20_distance` members of the original group. -/
theorem pick_preferred_subset_rule (g : List Candidate) (h6 : 6 < g.length) :
    (6 < (g.filter (fun c => c.is_lowest_close = false)).length →
      (selectGroup g).length = 6 ∧
      (∀ x ∈ selectGroup g, x ∈ g.filter (fun c => c.is_lowest_close = false)) ∧
      (∀ x ∈ selectGroup g,
        ∀ y ∈ g.filter (fun c => c.is_lowest_close = false),
          y ∉ selectGroup g → x.avg_ma20_distance ≤ y.avg_ma20_distance)) ∧
    (0 < (g.filter (fun c => c.is_lowest_close = false)).length →
      (g.filter (fun c => c.is_lowest_close = false)).length ≤ 6 →
      selectGroup g = g.filter (fun c => c.is_lowest_close = false)) ∧
    ((g.filter (fun c => c.is_lowest_close = false)).length = 0 →
      (selectGroup g).length = 6 ∧
      (∀ x ∈ selectGroup g, x ∈ g) ∧
      (∀ x ∈ selectGroup g, ∀ y ∈ g,
        y ∉ selectGroup g → x.avg_ma20_distance ≤ y.avg_ma20_distance)) := by
  refine ⟨fun hf => ?_, fun hf0 hf6 => ?_, fun hfe => ?_⟩
  · have hsel : selectGroup g =
        nsmallestByDist 6 (g.filter (fun c => c.is_lowest_close = false)) := by
      simp only [selectGroup]
      rw [if_pos h6, if_pos hf]
    rw [hsel]
    exact nsmallestByDist_spec _ (le_of_lt hf)
  · simp only [selectGroup]
    rw [if_pos h6, if_neg (by omega), if_pos hf0]
  · have hsel : selectGroup g = nsmallestByDist 6 g := by
      simp only [selectGroup]
      rw [if_pos h6, if_neg (by omega), if_neg (by omega)]
    rw [hsel]
    exact nsmallestByDist_spec _ (by omega)

/-- A concrete 7-member group for the C2 witness: three members are not at
their 5-day low, so the 1–6 branch keeps exactly those three. -/
def c2Cand (slope dist : ℚ) (low : Bool) : Candidate :=
  ⟨"W", 100, 100, 0, .divided 0, slope, 1000000, 1000000, dist, low⟩

def c2Group : List Candidate :=
  [c2Cand 1 1 true, c2Cand 1 2 false, c2Cand 1 3 true, c2Cand 1 4 false,
   c2Cand 1 5 true, c2Cand 1 6 false, c2Cand 1 7 true]

/-- C2 witness: on `c2Group` the preferred subset has 3 members and is kept
whole. -/
theorem pick_preferred_subset_rule_witness :
    selectGroup c2Group =
      c2Group.filter (fun c => c.is_lowest_close = false) :=
  (pick_preferred_subset_rule c2Group (by decide)).2.1 (by decide) (by decide)

/-- C3.  The slope gate of line 266 tests `>= 2.0`, so every surviving
candidate has `ma20_slope < 2` (a slope of exactly 2.0 is excluded
entirely); and the classification of lines 315–316 places a slope of
exactly 0.8 in Group A and not in Group B. -/
theorem slope_boundary :
    (∀ (g : List Row) (c : Candidate), evalTicker g = some c → c.ma20_slope < 2) ∧
    (∀ c : Candidate, c.ma20_slope = 0.8 →
      inGroupA c = true ∧ inGroupB c = false) := by
  constructor
  · intro g c h
    simp only [evalTicker] at h
    split at h
    · cases h
    · split at h
      · cases h
      · split at h
        · cases h
        · split at h
          · cases h
          · split at h
            · cases h
            · split at h
              · cases h
              · rename_i hslope
                split at h
                · cases h
                · split at h
                  · cases h
                  · cases h
                    simp only [not_le] at hslope
                    exact hslope
  · intro c hc
    constructor
    · simp only [inGroupA, hc, decide_eq_true_eq]
      norm_num
    · simp only [inGroupB, hc]
      norm_num

/-- A concrete flat ticker that survives every gate. -/
def c3Rows : List Row :=
  (List.range 24).map (fun i => ⟨"AAA", i, 101, 102, 101, 100, 2000000⟩)

def c3Boundary : Candidate :=
  ⟨"B", 100, 100, 0, .divided 0, 0.8, 2000000, 2000000, 1, false⟩

/-- C3 witness: a concrete flat ticker survives every gate and its slope is
below 2; a candidate with slope exactly 0.8 is classified into Group A. -/
theorem slope_boundary_witness :
    ((evalTicker c3Rows).getD ⟨"", 0, 0, 0, .sentinel, 0, 0, 0, 0, false⟩).ma20_slope < 2 ∧
    (inGroupA c3Boundary = true ∧ inGroupB c3Boundary = false) := by
  have hs : (evalTicker c3Rows).isSome = true := by with_unfolding_all decide
  have heq : evalTicker c3Rows =
      some ((evalTicker c3Rows).getD ⟨"", 0, 0, 0, .sentinel, 0, 0, 0, 0, false⟩) := by
    cases hx : evalTicker c3Rows
    · rw [hx] at hs; cases hs
    · rfl
  exact ⟨slope_boundary.1 c3Rows _ heq,
    slope_boundary.2 c3Boundary (by with_unfolding_all decide)⟩

/-- C9.  In the volatility gate, a non-positive mean close takes the
`999` sentinel branch with no division performed, the sentinel exceeds the
8.0 threshold, and the ticker is excluded; the division branch is taken
only when the mean close is strictly positive. -/
theorem volatility_zero_mean_guard :
    (∀ closes : List ℚ, meanQ closes ≤ 0 →
      volatilityPct closes = .sentinel ∧
      volExceeds8 (volatilityPct closes) = true) ∧
    (∀ (closes : List ℚ) (volSq : ℚ),
      volatilityPct closes = .divided volSq → 0 < meanQ closes) ∧
    (∀ g : List Row, meanQ ((tailN 5 g).map (·.close)) ≤ 0 →
      evalTicker g = none) := by
  refine ⟨fun closes h => ?_, fun closes volSq h => ?_, fun g h => ?_⟩
  · have hsent : volatilityPct closes = .sentinel := by
      unfold volatilityPct
      rw [if_neg (not_lt.mpr h)]
    exact ⟨hsent, by rw [hsent]; rfl⟩
  · unfold volatilityPct at h
    split at h
    · assumption
    · cases h
  · simp only [evalTicker]
    split
    · rfl
    · split
      · rfl
      · split
        · rfl
        · split
          · rfl
          · split
            · rfl
            · split
              · rfl
              · split
                · rfl
                · rename_i hvol
                  exfalso
                  have : volatilityPct ((tailN 5 g).map (·.close)) = .sentinel := by
                    unfold volatilityPct
                    rw [if_neg (not_lt.mpr h)]
                  rw [this] at hvol
                  exact hvol rfl

def c9Zero : List Row :=
  (List.range 10).map (fun i => ⟨"Z", i, 0, 0, 0, 0, 0⟩)

/-- C9 witness at concrete inputs: five zero closes take the sentinel
branch and force exclusion; five positive closes take the division
branch. -/
theorem volatility_zero_mean_guard_witness :
    (volatilityPct [0, 0, 0, 0, 0] = .sentinel ∧
      volExceeds8 (volatilityPct [0, 0, 0, 0, 0]) = true) ∧
    (0 : ℚ) < meanQ [100, 100, 100, 100, 100] ∧
    evalTicker c9Zero = none :=
  ⟨volatility_zero_mean_guard.1 [0, 0, 0, 0, 0] (by with_unfolding_all decide),
   volatility_zero_mean_guard.2.1 [100, 100, 100, 100, 100] 0
     (by with_unfolding_all decide),
   volatility_zero_mean_guard.2.2 c9Zero (by with_unfolding_all decide)⟩

/-- C10.  The empty input table returns an empty result before any column
validation (so an empty table missing every required column does not
raise), and when no ticker survives the gates an empty candidate list is
likewise returned, not raised. -/
theorem empty_input_returns_empty (prices : PriceTable) :
    (prices.rows = [] → pickStocks prices = .ok []) ∧
    (survivors prices.rows = [] → missingColumns prices = [] →
      pickStocks prices = .ok []) := by
  constructor
  · intro h
    simp only [pickStocks, h]
    rfl
  · intro hsurv hcols
    simp only [pickStocks]
    split
    · rfl
    · rw [if_neg (by simp [hcols]), hsurv]
      rfl

/-- C10 witness: the empty table with no columns at all yields `ok []`. -/
theorem empty_input_returns_empty_witness :
    pickStocks ⟨[], []⟩ = .ok [] :=
  (empty_input_returns_empty ⟨[], []⟩).1 rfl

/-- C4 counterexample to the claim as stated: the empty table is missing
every required column (it has no columns at all), yet `pick_stocks`
returns an empty result instead of raising, because the empty-input check
of line 197 precedes the column validation of lines 202–207. -/
theorem missing_columns_empty_counterexample :
    "code" ∈ requiredColumns ∧
    "code" ∉ (PriceTable.mk [] []).cols ∧
    pickStocks ⟨[], []⟩ = .ok [] :=
  ⟨by decide, by decide, rfl⟩

/-- C4 (amended to non-empty tables).  Every non-empty input table missing
any required column makes `pick_stocks` raise a `ValueError` naming
exactly the missing required columns. -/
theorem missing_columns_error (prices : PriceTable)
    (hrows : prices.rows ≠ [])
    (hmiss : ∃ col ∈ requiredColumns, col ∉ prices.cols) :
    pickStocks prices = .error (missingColumns prices) ∧
    ∀ col ∈ requiredColumns, col ∉ prices.cols → col ∈ missingColumns prices := by
  have hne : missingColumns prices ≠ [] := by
    obtain ⟨col, hcr, hcn⟩ := hmiss
    intro hnil
    have : col ∈ missingColumns prices := by
      simp only [missingColumns, List.mem_filter]
      exact ⟨hcr, by simpa using hcn⟩
    rw [hnil] at this
    cases this
  constructor
  · simp only [pickStocks]
    rw [if_neg (by simpa using hrows), if_pos hne]
  · intro col hcr hcn
    simp only [missingColumns, List.mem_filter]
    exact ⟨hcr, by simpa using hcn⟩

/-- C4 witness: a one-row table whose only column is `"close"` raises,
naming the six missing required columns. -/
theorem missing_columns_error_witness :
    pickStocks ⟨["close"], [⟨"AAA", 0, 1, 1, 1, 1, 1⟩]⟩ =
      .error ["code", "date", "open", "high", "low", "volume"] ∧
    "date" ∈ missingColumns ⟨["close"], [⟨"AAA", 0, 1, 1, 1, 1, 1⟩]⟩ := by
  have h := missing_columns_error ⟨["close"], [⟨"AAA", 0, 1, 1, 1, 1, 1⟩]⟩
    (by decide) ⟨"code", by decide, by decide⟩
  refine ⟨?_, h.2 "date" (by decide) (by decide)⟩
  rw [h.1]
  rfl

/-- C5.  A requested (already-stripped, non-blank) ticker is in the
to-fetch set exactly when it is absent from the store's existing ranges or
its stored max date is strictly earlier than today (so a ticker whose max
date equals today is skipped); and every batch request of the run carries
the one shared start date `today − 2·lookback_days`. -/
theorem freshness_resolution (codes : List String)
    (existing : List (String × Int)) (today lookbackDays : Int) (c : String)
    (hc : c ∈ codes) (ht : pyStrip c = c) (hne : c ≠ "") :
    (c ∈ codesToFetch codes existing today ↔
      alookup c existing = none ∨
      ∃ m, alookup c existing = some m ∧ m < today) ∧
    (∀ req ∈ batchRequests codes existing today lookbackDays,
      req.start = today - 2 * lookbackDays) := by
  constructor
  · constructor
    · intro hmem
      obtain ⟨c0, _hc0, heq⟩ := List.mem_filterMap.mp hmem
      simp only at heq
      split at heq
      · cases heq
      · rename_i hblank
        split at heq
        · rename_i hlk
          cases heq
          exact Or.inl hlk
        · rename_i m hlk
          split at heq
          · cases heq
            exact Or.inr ⟨m, hlk, by assumption⟩
          · cases heq
    · intro hcond
      refine List.mem_filterMap.mpr ⟨c, hc, ?_⟩
      simp only [ht]
      rw [if_neg hne]
      rcases hcond with hlk | ⟨m, hlk, hm⟩
      · rw [hlk]
      · rw [hlk]
        simp only [if_pos hm]
  · intro req hreq
    obtain ⟨bc, _hbc, heq⟩ := List.mem_map.mp hreq
    rw [← heq]
    rfl

/-- C5 witness: two stored tickers and one unknown one, resolved against
`today = 10`. -/
theorem freshness_resolution_witness :
    ("OLD" ∈ codesToFetch ["OLD", "FRESH", "NEW"] [("OLD", 5), ("FRESH", 10)] 10 ↔
      alookup "OLD" [("OLD", 5), ("FRESH", 10)] = none ∨
      ∃ m, alookup "OLD" [("OLD", 5), ("FRESH", 10)] = some m ∧ m < 10) ∧
    (∀ req ∈ batchRequests ["OLD", "FRESH", "NEW"] [("OLD", 5), ("FRESH", 10)] 10 120,
      req.start = 10 - 2 * 120) :=
  freshness_resolution ["OLD", "FRESH", "NEW"] [("OLD", 5), ("FRESH", 10)] 10 120
    "OLD" (by decide) (by decide) (by decide)

/-! ### Helper lemmas: the upsert normal form -/

/-- Delete from a store every row whose key occurs in `df`. -/
def delBy (df store : List Row) : List Row :=
  store.filter (fun s => keyOf s ∉ df.map keyOf)

lemma upsertRow_nil (r : Row) : upsertRow [] r = [r] := rfl

lemma mem_upsertAll_key :
    ∀ (df store : List Row), ∀ s ∈ upsertAll store df,
      s ∈ store ∨ keyOf s ∈ df.map keyOf := by
  intro df
  induction df with
  | nil => intro store s hs; exact Or.inl hs
  | cons r ds ih =>
      intro store s hs
      rcases ih (upsertRow store r) s hs with h | h
      · rcases List.mem_append.mp h with h1 | h2
        · exact Or.inl (List.mem_of_mem_filter h1)
        · rcases List.mem_singleton.mp h2 with rfl
          exact Or.inr (by simp)
      · exact Or.inr (by simp [h])

/-- Normal form of a bulk upsert: the untouched store rows (those whose
key `df` never writes) in order, followed by the rows `df` itself
produces. -/
lemma upsertAll_normal :
    ∀ (df store : List Row), upsertAll store df = delBy df store ++ upsertAll [] df := by
  intro df
  induction df with
  | nil =>
      intro store
      simp only [upsertAll, List.foldl_nil, delBy]
      rw [List.filter_eq_self.mpr (by simp), List.append_nil]
  | cons r ds ih =>
      intro store
      have lhs : upsertAll store (r :: ds) = upsertAll (upsertRow store r) ds := rfl
      rw [lhs, ih (upsertRow store r)]
      have rhs : upsertAll [] (r :: ds) = upsertAll [r] ds := rfl
      conv_rhs => rw [rhs, ih [r]]
      show delBy ds (upsertRow store r) ++ upsertAll [] ds =
        delBy (r :: ds) store ++ (delBy ds [r] ++ upsertAll [] ds)
      rw [← List.append_assoc]
      congr 1
      unfold upsertRow delBy
      rw [List.filter_append]
      congr 1
      rw [List.filter_filter]
      apply List.filter_congr
      intro s _
      by_cases h1 : keyOf s = keyOf r <;>
        by_cases h2 : keyOf s ∈ List.map keyOf ds <;> simp [h1, h2]

lemma keysOf_upsertRow_nodup (store : List Row) (r : Row)
    (h : (keysOf store).Nodup) : (keysOf (upsertRow store r)).Nodup := by
  unfold upsertRow keysOf
  rw [List.map_append, List.map_singleton, List.nodup_append]
  refine ⟨?_, List.nodup_singleton _, ?_⟩
  · exact ((List.filter_sublist store).map keyOf).nodup h
  · intro k hk
    obtain ⟨s, hs, rfl⟩ := List.mem_map.mp hk
    have := (List.mem_filter.mp hs).2
    simp only [decide_eq_true_eq] at this
    simpa using this

lemma keysOf_upsertAll_nodup :
    ∀ (df store : List Row), (keysOf store).Nodup →
      (keysOf (upsertAll store df)).Nodup := by
  intro df
  induction df with
  | nil => intro store h; exact h
  | cons r ds ih =>
      intro store h
      exact ih (upsertRow store r) (keysOf_upsertRow_nodup store r h)

lemma find?_append_all_neg (r : Row) :
    ∀ l : List Row, (∀ s ∈ l, keyOf s ≠ keyOf r) →
      (l ++ [r]).find? (fun s => keyOf s = keyOf r) = some r := by
  intro l
  induction l with
  | nil =>
      intro _
      simp [List.find?]
  | cons a t ih =>
      intro h
      have ha : keyOf a ≠ keyOf r := h a (by simp)
      rw [List.cons_append, List.find?_cons_of_neg]
      · exact ih (fun s hs => h s (by simp [hs]))
      · simpa using ha

/-- C8.  Replaying the same frame over `upsert_prices` is idempotent
(last-write-wins), the store never acquires two rows with one
(ticker, date) key, and a write whose key already exists fully replaces
the prior row. -/
theorem upsert_idempotent_lastwrite (store df : List Row) :
    upsertAll (upsertAll store df) df = upsertAll store df ∧
    ((keysOf store).Nodup → (keysOf (upsertAll store df)).Nodup) ∧
    (∀ r : Row, findByKey (upsertRow store r) (keyOf r) = some r) := by
  refine ⟨?_, keysOf_upsertAll_nodup df store, fun r => ?_⟩
  · have hdel2 : delBy df (delBy df store) = delBy df store := by
      unfold delBy
      rw [List.filter_filter]
      apply List.filter_congr
      intro s _
      simp
    have hdelnew : delBy df (upsertAll [] df) = [] := by
      unfold delBy
      rw [List.filter_eq_nil_iff]
      intro s hs
      rcases mem_upsertAll_key df [] s hs with h | h
      · cases h
      · simp [h]
    calc upsertAll (upsertAll store df) df
        = delBy df (upsertAll store df) ++ upsertAll [] df :=
          upsertAll_normal df _
      _ = delBy df (delBy df store ++ upsertAll [] df) ++ upsertAll [] df := by
          conv_lhs => rw [upsertAll_normal df store]
      _ = (delBy df (delBy df store) ++ delBy df (upsertAll [] df)) ++
            upsertAll [] df := by
          unfold delBy
          rw [List.filter_append]
      _ = delBy df store ++ upsertAll [] df := by
          rw [hdel2, hdelnew, List.append_nil]
      _ = upsertAll store df := (upsertAll_normal df store).symm
  · unfold findByKey upsertRow
    apply find?_append_all_neg
    intro s hs
    have := (List.mem_filter.mp hs).2
    simpa using this

/-- C8 witness at a concrete store and frame. -/
theorem upsert_idempotent_lastwrite_witness :
    upsertAll (upsertAll [] [⟨"AAA", 1, 1, 2, 1, 2, 50⟩]) [⟨"AAA", 1, 1, 2, 1, 2, 50⟩] =
      upsertAll [] [⟨"AAA", 1, 1, 2, 1, 2, 50⟩] ∧
    (keysOf (upsertAll [] [⟨"AAA", 1, 1, 2, 1, 2, 50⟩])).Nodup ∧
    findByKey (upsertRow [] ⟨"AAA", 1, 1, 2, 1, 2, 50⟩)
      (keyOf ⟨"AAA", 1, 1, 2, 1, 2, 50⟩) = some ⟨"AAA", 1, 1, 2, 1, 2, 50⟩ :=
  ⟨(upsert_idempotent_lastwrite [] [⟨"AAA", 1, 1, 2, 1, 2, 50⟩]).1,
   (upsert_idempotent_lastwrite [] [⟨"AAA", 1, 1, 2, 1, 2, 50⟩]).2.1 (by decide),
   (upsert_idempotent_lastwrite [] [⟨"AAA", 1, 1, 2, 1, 2, 50⟩]).2.2 _⟩

/-! ### Helper lemmas: the batch loop -/

lemma chunksAux_flatten_aux (n : Nat) :
    ∀ (k : Nat) (l : List α), l.length ≤ k → (chunksAux n l).flatten = l := by
  intro k
  induction k with
  | zero =>
      intro l hl
      rw [List.eq_nil_of_length_eq_zero (Nat.le_zero.mp hl)]
      simp [chunksAux]
  | succ k ih =>
      intro l hl
      match l with
      | [] => simp [chunksAux]
      | x :: xs =>
          rw [chunksAux, List.flatten_cons,
            ih (xs.drop n) (by simp only [List.length_drop]; simp at hl; omega)]
          simp [List.take_append_drop]

lemma chunksAux_flatten (n : Nat) (l : List α) : (chunksAux n l).flatten = l :=
  chunksAux_flatten_aux n l.length l (le_refl _)

lemma chunksOf_flatten (n : Nat) (l : List α) : (chunksOf n l).flatten = l :=
  chunksAux_flatten (n - 1) l

lemma sliceRows_code {resp : Resp} {c : String} {row : Row}
    (h : row ∈ sliceRows resp c) : row.code = c := by
  unfold sliceRows at h
  split at h
  · split at h
    · cases h
    · obtain ⟨b, _, rfl⟩ := List.mem_map.mp h
      rfl
  · cases h

lemma firstOk_ok {net : Nat → Except String Resp} :
    ∀ (fuel a : Nat) (resp : Resp), firstOk net a fuel = some resp →
      ∃ a2, net a2 = .ok resp := by
  intro fuel
  induction fuel with
  | zero => intro a resp h; cases h
  | succ fuel ih =>
      intro a resp h
      rw [firstOk] at h
      split at h
      · rename_i r heq
        cases h
        exact ⟨a, heq⟩
      · exact ih (a + 1) resp h

lemma runBatch_code {net : Nat → Except String Resp} {bc : List String}
    {row : Row} (h : row ∈ (runBatch net bc).1) : row.code ∈ bc := by
  unfold runBatch at h
  split at h
  · obtain ⟨c, hc, hrow⟩ := List.mem_flatMap.mp h
    rw [sliceRows_code hrow]
    exact hc
  · cases h

lemma sliceRows_keys_nodup (resp : Resp) (c : String)
    (hgood : ∀ l, lookupSlice c resp = some l → (l.map (·.date)).Nodup) :
    ((sliceRows resp c).map keyOf).Nodup := by
  unfold sliceRows
  split
  · rename_i l heq
    split
    · exact List.nodup_nil
    · rw [List.map_map]
      have : (keyOf ∘ fun b => (⟨c, b.date, b.openP, b.high, b.low, b.close,
          b.volume⟩ : Row)) = (fun d => (c, d)) ∘ (fun b : RawBar => b.date) := rfl
      rw [this, ← List.map_map]
      exact (hgood l heq).map (fun d d2 hd => by
        simpa using congrArg Prod.snd hd)
  · exact List.nodup_nil

lemma runBatch_keys_nodup {net : Nat → Except String Resp} {bc : List String}
    (hgood : ∀ a resp, net a = .ok resp →
      ∀ c l, lookupSlice c resp = some l → (l.map (·.date)).Nodup)
    (hnd : bc.Nodup) : ((runBatch net bc).1.map keyOf).Nodup := by
  unfold runBatch
  split
  · rename_i resp heq
    obtain ⟨a2, ha2⟩ := firstOk_ok MAX_RETRIES 0 resp heq
    show ((bc.flatMap (sliceRows resp)).map keyOf).Nodup
    rw [List.map_flatMap]
    refine List.nodup_flatMap.mpr ⟨?_, ?_⟩
    · intro c _
      exact sliceRows_keys_nodup resp c (hgood a2 resp ha2 c)
    · refine hnd.imp ?_
      intro c1 c2 hne
      intro k hk1 hk2
      obtain ⟨r1, hr1, hk1e⟩ := List.mem_map.mp hk1
      obtain ⟨r2, hr2, hk2e⟩ := List.mem_map.mp hk2
      apply hne
      have e1 : r1.code = c1 := sliceRows_code hr1
      have e2 : r2.code = c2 := sliceRows_code hr2
      have : r1.code = r2.code := by
        have := hk1e.trans hk2e.symm
        exact congrArg Prod.fst this
      rw [← e1, ← e2, this]
  · exact List.nodup_nil

lemma runBatch_total (net : Nat → Except String Resp) (bc : List String)
    (c : String) (hc : c ∈ bc) :
    (∃ row ∈ (runBatch net bc).1, row.code = c) ∨ c ∈ (runBatch net bc).2 := by
  unfold runBatch
  split
  · rename_i resp heq
    by_cases hf : sliceFailed resp c = true
    · exact Or.inr (List.mem_filter.mpr ⟨hc, hf⟩)
    · left
      have hrows : sliceRows resp c ≠ [] := by
        unfold sliceFailed at hf
        unfold sliceRows
        split
        · rename_i l hl
          rw [hl] at hf
          rw [if_neg (by simpa using hf)]
          simp only [ne_eq, List.map_eq_nil_iff]
          simpa using hf
        · rename_i hl
          rw [hl] at hf
          exact absurd rfl hf
      obtain ⟨row, hrow⟩ := List.exists_mem_of_ne_nil _ hrows
      exact ⟨row, List.mem_flatMap.mpr ⟨c, hc, hrow⟩, sliceRows_code hrow⟩
  · exact Or.inr hc

lemma runBatches_rows_mem {netw : Nat → Nat → Except String Resp} :
    ∀ (bs : List (List String)) (i : Nat) (row : Row),
      row ∈ (runBatches netw i bs).1 →
      ∃ j bc, bs[j]? = some bc ∧ row ∈ (runBatch (netw (i + j)) bc).1 := by
  intro bs
  induction bs with
  | nil => intro i row h; cases h
  | cons bc rest ih =>
      intro i row h
      rcases List.mem_append.mp h with h1 | h2
      · exact ⟨0, bc, by simp, by simpa using h1⟩
      · obtain ⟨j, bc2, hj, hrow⟩ := ih (i + 1) row h2
        exact ⟨j + 1, bc2, by simpa using hj,
          by rwa [show i + (j + 1) = i + 1 + j by omega]⟩

lemma runBatches_rows_of {netw : Nat → Nat → Except String Resp} :
    ∀ (bs : List (List String)) (i j : Nat) (bc : List String),
      bs[j]? = some bc →
      ∀ row ∈ (runBatch (netw (i + j)) bc).1, row ∈ (runBatches netw i bs).1 := by
  intro bs
  induction bs with
  | nil => intro i j bc h; cases h
  | cons bc0 rest ih =>
      intro i j bc h row hrow
      match j with
      | 0 =>
          rw [List.getElem?_cons_zero] at h
          cases h
          exact List.mem_append.mpr (Or.inl (by simpa using hrow))
      | j + 1 =>
          rw [List.getElem?_cons_succ] at h
          refine List.mem_append.mpr (Or.inr ?_)
          exact ih (i + 1) j bc h row
            (by rwa [show i + 1 + j = i + (j + 1) by omega])

lemma runBatches_failed_of {netw : Nat → Nat → Except String Resp} :
    ∀ (bs : List (List String)) (i j : Nat) (bc : List String),
      bs[j]? = some bc →
      ∀ c ∈ (runBatch (netw (i + j)) bc).2, c ∈ (runBatches netw i bs).2 := by
  intro bs
  induction bs with
  | nil => intro i j bc h; cases h
  | cons bc0 rest ih =>
      intro i j bc h c hc
      match j with
      | 0 =>
          rw [List.getElem?_cons_zero] at h
          cases h
          exact List.mem_append.mpr (Or.inl (by simpa using hc))
      | j + 1 =>
          rw [List.getElem?_cons_succ] at h
          refine List.mem_append.mpr (Or.inr ?_)
          exact ih (i + 1) j bc h c
            (by rwa [show i + 1 + j = i + (j + 1) by omega])

lemma runBatches_keys_nodup {netw : Nat → Nat → Except String Resp}
    (hgood : ∀ b a resp, netw b a = .ok resp →
      ∀ c l, lookupSlice c resp = some l → (l.map (·.date)).Nodup) :
    ∀ (bs : List (List String)) (i : Nat),
      (∀ bc ∈ bs, bc.Nodup) → bs.Pairwise List.Disjoint →
      ((runBatches netw i bs).1.map keyOf).Nodup := by
  intro bs
  induction bs with
  | nil => intro i _ _; exact List.nodup_nil
  | cons bc rest ih =>
      intro i hnd hpw
      show (((runBatch (netw i) bc).1 ++ (runBatches netw (i + 1) rest).1).map
        keyOf).Nodup
      rw [List.map_append, List.nodup_append]
      refine ⟨runBatch_keys_nodup (fun a => hgood i a) (hnd bc (by simp)), ?_, ?_⟩
      · exact ih (i + 1) (fun b hb => hnd b (by simp [hb]))
          (List.Pairwise.sublist (List.sublist_cons_self bc rest) hpw)
      · intro k hk1 hk2
        obtain ⟨r1, hr1, hk1e⟩ := List.mem_map.mp hk1
        obtain ⟨r2, hr2, hk2e⟩ := List.mem_map.mp hk2
        have hc1 : r1.code ∈ bc := runBatch_code hr1
        obtain ⟨j, bc2, hj, hrow2⟩ := runBatches_rows_mem rest (i + 1) r2 hr2
        have hc2 : r2.code ∈ bc2 := runBatch_code hrow2
        have hdisj : List.Disjoint bc bc2 :=
          (List.pairwise_cons.mp hpw).1 bc2 (List.getElem?_mem hj)
        have : r1.code = r2.code := by
          have := hk1e.trans hk2e.symm
          exact congrArg Prod.fst this
        exact hdisj hc1 (this ▸ hc2)

/-- C6.  In every run, the tickers of the returned table are a subset of
the to-fetch set, and the table holds no two rows with one
(ticker, date) key — given that each downloaded per-ticker slice carries
distinct dates and the resolved to-fetch set has no duplicates
(the requested universe is de-duplicated). -/
theorem fetch_subset_and_key_nodup (netw : Nat → Nat → Except String Resp)
    (codes : List String) (existing : List (String × Int)) (today : Int)
    (hresp : ∀ b a resp, netw b a = .ok resp →
      ∀ c l, lookupSlice c resp = some l → (l.map (·.date)).Nodup)
    (hnd : (codesToFetch codes existing today).Nodup) :
    (∀ row ∈ (fetchRun netw codes existing today).rows,
      row.code ∈ codesToFetch codes existing today) ∧
    ((fetchRun netw codes existing today).rows.map keyOf).Nodup := by
  simp only [fetchRun]
  split
  · exact ⟨fun row h => absurd h (by simp), List.nodup_nil⟩
  · have hflat := chunksOf_flatten BATCH_SIZE (codesToFetch codes existing today)
    have hnd2 : ((chunksOf BATCH_SIZE (codesToFetch codes existing today)).flatten).Nodup := by
      rwa [hflat]
    obtain ⟨hparts, hpw⟩ := List.nodup_flatten.mp hnd2
    constructor
    · intro row hrow
      obtain ⟨j, bc, hj, hmem⟩ := runBatches_rows_mem _ 0 row hrow
      have : row.code ∈ bc := runBatch_code hmem
      rw [← hflat]
      exact List.mem_flatten.mpr ⟨bc, List.getElem?_mem hj, this⟩
    · exact runBatches_keys_nodup hresp _ 0 hparts hpw

def c6Netw : Nat → Nat → Except String Resp :=
  fun _ _ => .ok [("AAA", [⟨1, 5, 6, 4, 5, 1500000⟩, ⟨2, 5, 6, 4, 5, 1600000⟩])]

/-- C6 witness: one ticker, one batch, a two-day slice with distinct
dates. -/
theorem fetch_subset_and_key_nodup_witness :
    (∀ row ∈ (fetchRun c6Netw ["AAA"] [] 0).rows,
      row.code ∈ codesToFetch ["AAA"] [] 0) ∧
    ((fetchRun c6Netw ["AAA"] [] 0).rows.map keyOf).Nodup := by
  refine fetch_subset_and_key_nodup c6Netw ["AAA"] [] 0 ?_ (by decide)
  intro b a resp h c l hl
  cases h
  unfold lookupSlice at hl
  split at hl
  · cases hl
    decide
  · cases hl

lemma firstOk_none {net : Nat → Except String Resp} :
    ∀ (fuel a : Nat), (∀ d, d < fuel → ∃ e, net (a + d) = .error e) →
      firstOk net a fuel = none := by
  intro fuel
  induction fuel with
  | zero => intro a _; rfl
  | succ fuel ih =>
      intro a h
      obtain ⟨e, he⟩ := h 0 (by omega)
      rw [firstOk, show net a = .error e from by simpa using he]
      exact ih (a + 1) (fun d hd => by
        have := h (d + 1) (by omega)
        rwa [show a + (d + 1) = a + 1 + d by omega] at this)

/-- C7.  A batch whose download raises on all `MAX_RETRIES` attempts has
every one of its tickers marked failed; the run continues over the other
batches (every to-fetch ticker still ends up either yielding rows or
listed as failed) and completes without propagating the exception; no row
of the output comes from the failed batch. -/
theorem batch_failure_isolated (netw : Nat → Nat → Except String Resp)
    (codes : List String) (existing : List (String × Int)) (today : Int)
    (i : Nat) (bc : List String)
    (hfail : ∀ a, a < MAX_RETRIES → ∃ e, netw i a = .error e)
    (hbc : (chunksOf BATCH_SIZE (codesToFetch codes existing today))[i]? = some bc)
    (hnd : (codesToFetch codes existing today).Nodup) :
    (∀ c ∈ bc, c ∈ (fetchRun netw codes existing today).failed) ∧
    (∀ row ∈ (fetchRun netw codes existing today).rows, row.code ∉ bc) ∧
    (∀ c ∈ codesToFetch codes existing today,
      (∃ row ∈ (fetchRun netw codes existing today).rows, row.code = c) ∨
      c ∈ (fetchRun netw codes existing today).failed) := by
  have hfirst : firstOk (netw i) 0 MAX_RETRIES = none :=
    firstOk_none MAX_RETRIES 0 (fun d hd => by simpa using hfail d hd)
  have hrb : runBatch (netw i) bc = ([], bc) := by
    unfold runBatch
    rw [hfirst]
  have hflat := chunksOf_flatten BATCH_SIZE (codesToFetch codes existing today)
  have hnd2 :
      ((chunksOf BATCH_SIZE (codesToFetch codes existing today)).flatten).Nodup := by
    rwa [hflat]
  obtain ⟨hparts, hpw⟩ := List.nodup_flatten.mp hnd2
  simp only [fetchRun]
  split
  · rename_i hempty
    exfalso
    have : codesToFetch codes existing today = [] := List.isEmpty_iff.mp hempty
    rw [this] at hbc
    rw [show chunksOf BATCH_SIZE ([] : List String) = [] from by
      simp [chunksOf, chunksAux]] at hbc
    simp at hbc
  · refine ⟨?_, ?_, ?_⟩
    · intro c hc
      apply runBatches_failed_of _ 0 i bc hbc
      rw [Nat.zero_add, hrb]
      exact hc
    · intro row hrow hcode
      obtain ⟨j, bc2, hj, hmem⟩ := runBatches_rows_mem _ 0 row hrow
      by_cases hji : j = i
      · subst hji
        rw [hj] at hbc
        cases hbc
        rw [Nat.zero_add, hrb] at hmem
        cases hmem
      · have hc2 : row.code ∈ bc2 := runBatch_code hmem
        obtain ⟨hjl, hjget⟩ := List.getElem?_eq_some_iff.mp hj
        obtain ⟨hil, higet⟩ := List.getElem?_eq_some_iff.mp hbc
        have hpg := List.pairwise_iff_getElem.mp hpw
        rcases Nat.lt_or_ge j i with hlt | hge
        · have := hpg j i hjl hil hlt
          rw [hjget, higet] at this
          exact this hc2 hcode
        · have hlt2 : i < j := by omega
          have := hpg i j hil hjl hlt2
          rw [hjget, higet] at this
          exact this.symm hc2 hcode
    · intro c hc
      rw [← hflat] at hc
      obtain ⟨bc2, hbc2, hcbc2⟩ := List.mem_flatten.mp hc
      obtain ⟨j, hj⟩ := List.getElem?_of_mem hbc2
      rcases runBatch_total (netw (0 + j)) bc2 c hcbc2 with ⟨row, hrm, hrc⟩ | hfl
      · exact Or.inl ⟨row, runBatches_rows_of _ 0 j bc2 hj row hrm, hrc⟩
      · exact Or.inr (runBatches_failed_of _ 0 j bc2 hj c hfl)

def c7Netw : Nat → Nat → Except String Resp := fun _ _ => .error "boom"

/-- C7 witness: a two-ticker batch whose download always raises. -/
theorem batch_failure_isolated_witness :
    (∀ c ∈ ["AAA", "BBB"], c ∈ (fetchRun c7Netw ["AAA", "BBB"] [] 0).failed) ∧
    (∀ row ∈ (fetchRun c7Netw ["AAA", "BBB"] [] 0).rows,
      row.code ∉ ["AAA", "BBB"]) ∧
    (∀ c ∈ codesToFetch ["AAA", "BBB"] [] 0,
      (∃ row ∈ (fetchRun c7Netw ["AAA", "BBB"] [] 0).rows, row.code = c) ∨
      c ∈ (fetchRun c7Netw ["AAA", "BBB"] [] 0).failed) := by
  have htf : codesToFetch ["AAA", "BBB"] [] 0 = ["AAA", "BBB"] := by decide
  have hch : chunksOf BATCH_SIZE (codesToFetch ["AAA", "BBB"] [] 0) =
      [["AAA", "BBB"]] := by
    rw [htf, chunksOf, show BATCH_SIZE - 1 = 199 from rfl, chunksAux,
      List.take_of_length_le (by norm_num), List.drop_of_length_le (by norm_num)]
    simp [chunksAux]
  exact batch_failure_isolated c7Netw ["AAA", "BBB"] [] 0 0 ["AAA", "BBB"]
    (fun a _ => ⟨"boom", rfl⟩) (by rw [hch]; rfl) (by decide)
